import Mathlib

/-!
Verification of the coordinate-grid sampler and the coordinate-to-DMS codec
of the geo-image generator (files generate_geo_images.py and
generate_geo_images_map.py; both files contain identical copies of
decimal_to_dms and generate_coordinates).

The embedding uses exact rationals for the numeric values.  Python's
int() truncation is applied to non-negative arguments only (the code takes
the absolute value first), so it is modelled by the floor function.  The
cosine of the radian-converted minimum latitude is transcendental, so
generate_coordinates takes the value cos(radians(lat_min)) as an explicit
parameter cos_lat_min; lat_min itself enters the loops only as the starting
latitude, exactly as in the source.
-/

namespace GeoImages

/-- Embedding of decimal_to_dms: take the absolute value, truncate to get
degrees, scale the remainder by 60 and truncate to get minutes, scale the
remainder by 60 and truncate to get seconds; the sign computed by the source
is never applied (the corresponding line is commented out in the source),
and the three truncated integers are returned as numbers. -/
def decimal_to_dms (decimal_degree : ℚ) : ℚ × ℚ × ℚ :=
  let a := |decimal_degree|
  let degrees : ℤ := ⌊a⌋
  let minutes_decimal : ℚ := (a - (degrees : ℚ)) * 60
  let minutes : ℤ := ⌊minutes_decimal⌋
  let seconds : ℤ := ⌊(minutes_decimal - (minutes : ℚ)) * 60⌋
  ((degrees : ℚ), (minutes : ℚ), (seconds : ℚ))

/-- Reconstruction of a decimal degree value from a DMS triple by the
formula degrees + minutes/60 + seconds/3600 used in the spec's round-trip
property. -/
def dmsToDecimal (t : ℚ × ℚ × ℚ) : ℚ :=
  t.1 + t.2.1 / 60 + t.2.2 / 3600

/-- The arithmetic sequence produced by a Python loop of the form
"while x <= xmax: yield x; x += step".  The loop diverges when step is not
positive and x <= xmax, so the model is restricted to positive steps (it
returns the empty list outside that domain, which agrees with the source
whenever the source terminates); the fuel-indexed models below represent
the unrestricted loops. -/
def stepList (x xmax step : ℚ) : List ℚ :=
  if h : 0 < step ∧ x ≤ xmax then
    x :: stepList (x + step) xmax step
  else []
termination_by (⌊(xmax - x) / step⌋ + 1).toNat
decreasing_by
  have hs : 0 < step := h.1
  have hq : (0 : ℚ) ≤ (xmax - x) / step := div_nonneg (by linarith [h.2]) hs.le
  have hfl : (0 : ℤ) ≤ ⌊(xmax - x) / step⌋ := Int.floor_nonneg.mpr hq
  have harg : (xmax - (x + step)) / step = (xmax - x) / step - 1 := by
    field_simp
    ring
  have hfs : ⌊(xmax - x) / step - 1⌋ = ⌊(xmax - x) / step⌋ - 1 := by
    exact_mod_cast Int.floor_sub_int ((xmax - x) / step) 1
  simp only [harg, hfs]
  omega

/-- Embedding of the inner while loop of generate_coordinates: starting
from a longitude lon, append (lat, lon) and advance by lon_step while
lon <= lon_max.  As with stepList, the model is restricted to a positive
step. -/
def lonLoop (lat lon lon_max lon_step : ℚ) : List (ℚ × ℚ) :=
  if h : 0 < lon_step ∧ lon ≤ lon_max then
    (lat, lon) :: lonLoop lat (lon + lon_step) lon_max lon_step
  else []
termination_by (⌊(lon_max - lon) / lon_step⌋ + 1).toNat
decreasing_by
  have hs : 0 < lon_step := h.1
  have hq : (0 : ℚ) ≤ (lon_max - lon) / lon_step := div_nonneg (by linarith [h.2]) hs.le
  have hfl : (0 : ℤ) ≤ ⌊(lon_max - lon) / lon_step⌋ := Int.floor_nonneg.mpr hq
  have harg : (lon_max - (lon + lon_step)) / lon_step = (lon_max - lon) / lon_step - 1 := by
    field_simp
    ring
  have hfs : ⌊(lon_max - lon) / lon_step - 1⌋ = ⌊(lon_max - lon) / lon_step⌋ - 1 := by
    exact_mod_cast Int.floor_sub_int ((lon_max - lon) / lon_step) 1
  simp only [harg, hfs]
  omega

/-- Embedding of the outer while loop of generate_coordinates: for each
latitude from lat up to lat_max in steps of lat_step, run the inner
longitude loop from lon_min and concatenate the rows. -/
def latLoop (lat lat_max lon_min lon_max lat_step lon_step : ℚ) : List (ℚ × ℚ) :=
  if h : 0 < lat_step ∧ lat ≤ lat_max then
    lonLoop lat lon_min lon_max lon_step ++
      latLoop (lat + lat_step) lat_max lon_min lon_max lat_step lon_step
  else []
termination_by (⌊(lat_max - lat) / lat_step⌋ + 1).toNat
decreasing_by
  have hs : 0 < lat_step := h.1
  have hq : (0 : ℚ) ≤ (lat_max - lat) / lat_step := div_nonneg (by linarith [h.2]) hs.le
  have hfl : (0 : ℤ) ≤ ⌊(lat_max - lat) / lat_step⌋ := Int.floor_nonneg.mpr hq
  have harg : (lat_max - (lat + lat_step)) / lat_step = (lat_max - lat) / lat_step - 1 := by
    field_simp
    ring
  have hfs : ⌊(lat_max - lat) / lat_step - 1⌋ = ⌊(lat_max - lat) / lat_step⌋ - 1 := by
    exact_mod_cast Int.floor_sub_int ((lat_max - lat) / lat_step) 1
  simp only [harg, hfs]
  omega

/-- Embedding of generate_coordinates.  The source computes
lat_step = step_km / 111 and lon_step = step_km / (111 * cos(radians(lat_min)))
once, before the loops; the transcendental value cos(radians(lat_min)) is
supplied as the parameter cos_lat_min. -/
def generate_coordinates (lat_min lat_max lon_min lon_max step_km cos_lat_min : ℚ) :
    List (ℚ × ℚ) :=
  let km_per_degree : ℚ := 111
  let lat_step := step_km / km_per_degree
  let lon_step := step_km / (km_per_degree * cos_lat_min)
  latLoop lat_min lat_max lon_min lon_max lat_step lon_step

/-- Fuel-indexed model of the inner while loop exactly as written in the
source, with no restriction on the step: the loop body runs while
lon <= lon_max, and the result is none when the fuel runs out before the
guard fails. -/
def lonLoopFuel (lat : ℚ) : Nat → ℚ → ℚ → ℚ → Option (List (ℚ × ℚ))
  | 0, _, _, _ => none
  | fuel + 1, lon, lon_max, lon_step =>
      if lon ≤ lon_max then
        (lonLoopFuel lat fuel (lon + lon_step) lon_max lon_step).map
          (fun rest => (lat, lon) :: rest)
      else some []

/-- Fuel-indexed model of the outer while loop exactly as written in the
source; each row is produced by the fuel-indexed inner loop with its own
fuel bound lon_fuel. -/
def latLoopFuel : Nat → Nat → ℚ → ℚ → ℚ → ℚ → ℚ → ℚ → Option (List (ℚ × ℚ))
  | 0, _, _, _, _, _, _, _ => none
  | fuel + 1, lon_fuel, lat, lat_max, lon_min, lon_max, lat_step, lon_step =>
      if lat ≤ lat_max then
        match lonLoopFuel lat lon_fuel lon_min lon_max lon_step,
            latLoopFuel fuel lon_fuel (lat + lat_step) lat_max lon_min lon_max
              lat_step lon_step with
        | some row, some rest => some (row ++ rest)
        | _, _ => none
      else some []

/-- The GPS fields written into the EXIF block by create_image: the DMS
triples for latitude and longitude, and the hemisphere reference strings. -/
structure ExifGps where
  gps_latitude : ℚ × ℚ × ℚ
  gps_latitude_ref : String
  gps_longitude : ℚ × ℚ × ℚ
  gps_longitude_ref : String
  deriving DecidableEq

/-- Embedding of the four EXIF GPS assignments of create_image:
gps_latitude = decimal_to_dms(lat), latitude ref "N" when lat >= 0 and "S"
otherwise, gps_longitude = decimal_to_dms(lon), longitude ref "E" when
lon >= 0 and "W" otherwise. -/
def exifGpsFor (lat lon : ℚ) : ExifGps :=
  { gps_latitude := decimal_to_dms lat
    gps_latitude_ref := if 0 ≤ lat then "N" else "S"
    gps_longitude := decimal_to_dms lon
    gps_longitude_ref := if 0 ≤ lon then "E" else "W" }

/-- Helper: the concrete value of the codec at -81/2 (the sign is dropped
and 40.5 degrees splits as 40 degrees 30 minutes 0 seconds). -/
lemma decimal_to_dms_neg_eighty_one_half :
    decimal_to_dms (-81 / 2 : ℚ) = (40, 30, 0) := by
  simp only [decimal_to_dms]
  rw [show |(-81 / 2 : ℚ)| = 81 / 2 by rw [abs_of_nonpos (by norm_num)]; norm_num]
  norm_num

/-- Helper: the concrete value of the codec at -33.5. -/
lemma decimal_to_dms_neg_thirty_three_half :
    decimal_to_dms (-33.5 : ℚ) = (33, 30, 0) := by
  simp only [decimal_to_dms]
  rw [show |(-33.5 : ℚ)| = 33.5 by rw [abs_of_nonpos (by norm_num)]; norm_num]
  norm_num

/-- Helper: the concrete value of the codec at 151.2 (exact rational
arithmetic gives 151 degrees 12 minutes 0 seconds). -/
lemma decimal_to_dms_one_fifty_one_point_two :
    decimal_to_dms (151.2 : ℚ) = (151, 12, 0) := by
  simp only [decimal_to_dms]
  rw [abs_of_nonneg (by norm_num : (0 : ℚ) ≤ 151.2)]
  norm_num

/-- Helper: the reconstruction of the absolute value of the input from the
codec's output drops at most one arc-second: it lies in the half-open
interval (|x| - 1/3600, |x|]. -/
lemma dms_reconstruction_bounds (x : ℚ) :
    dmsToDecimal (decimal_to_dms x) ≤ |x| ∧
      |x| - 1 / 3600 < dmsToDecimal (decimal_to_dms x) := by
  simp only [decimal_to_dms, dmsToDecimal]
  set a := |x| with ha
  have hm : ((a - ((⌊a⌋ : ℤ) : ℚ)) * 60 - ((⌊(a - ((⌊a⌋ : ℤ) : ℚ)) * 60⌋ : ℤ) : ℚ)) * 60
      = (a - ((⌊a⌋ : ℤ) : ℚ)) * 3600
        - (((60 * ⌊(a - ((⌊a⌋ : ℤ) : ℚ)) * 60⌋ : ℤ) : ℤ) : ℚ) := by
    push_cast
    ring
  rw [hm, Int.floor_sub_int]
  have h1 : ((⌊(a - ((⌊a⌋ : ℤ) : ℚ)) * 3600⌋ : ℤ) : ℚ) ≤ (a - ((⌊a⌋ : ℤ) : ℚ)) * 3600 :=
    Int.floor_le _
  have h2 : (a - ((⌊a⌋ : ℤ) : ℚ)) * 3600 < ((⌊(a - ((⌊a⌋ : ℤ) : ℚ)) * 3600⌋ : ℤ) : ℚ) + 1 :=
    Int.lt_floor_add_one _
  constructor
  · push_cast
    linarith
  · push_cast
    linarith

/-- Claim C1 (as stated): for every input x the reconstruction
degrees + minutes/60 + seconds/3600 of decimal_to_dms(x) lies within
1/3600 of x itself.  This fails for negative x because the codec drops the
sign: at x = -81/2 the codec returns (40, 30, 0), which reconstructs to
81/2, a full 81 degrees away from the input. -/
theorem claim1_counterexample :
    (1 / 3600 : ℚ) < |dmsToDecimal (decimal_to_dms (-81 / 2)) - (-81 / 2)| := by
  rw [decimal_to_dms_neg_eighty_one_half]
  norm_num [dmsToDecimal]

/-- Claim C1 (amended): for every input x, reconstructing decimal degrees
from the triple returned by decimal_to_dms(x) via
degrees + minutes/60 + seconds/3600 yields a value within 1/3600 of a
degree of the absolute value |x| of the input (hence of x itself whenever
x is non-negative). -/
theorem claim1_roundtrip_abs (x : ℚ) :
    abs (dmsToDecimal (decimal_to_dms x) - |x|) < 1 / 3600 := by
  have h := dms_reconstruction_bounds x
  rw [abs_lt]
  constructor
  · linarith [h.2]
  · linarith [h.1, abs_nonneg x]

/-- Claim C2: decimal_to_dms(0) returns (0, 0, 0), and
decimal_to_dms(40.758896) returns degrees 40, minutes 45, seconds 32. -/
theorem claim2_concrete_values :
    decimal_to_dms 0 = (0, 0, 0) ∧
      decimal_to_dms (40.758896 : ℚ) = (40, 45, 32) := by
  constructor
  · norm_num [decimal_to_dms]
  · simp only [decimal_to_dms]
    rw [abs_of_nonneg (by norm_num : (0 : ℚ) ≤ 40.758896)]
    norm_num

/-- Claim C3: for every input x the triple returned by decimal_to_dms(x)
satisfies degrees = floor(|x|), 0 <= minutes < 60 and 0 <= seconds < 60;
in particular all three components are non-negative. -/
theorem claim3_dms_invariants (x : ℚ) :
    (decimal_to_dms x).1 = ((⌊|x|⌋ : ℤ) : ℚ) ∧
      0 ≤ (decimal_to_dms x).1 ∧
      0 ≤ (decimal_to_dms x).2.1 ∧ (decimal_to_dms x).2.1 < 60 ∧
      0 ≤ (decimal_to_dms x).2.2 ∧ (decimal_to_dms x).2.2 < 60 := by
  simp only [decimal_to_dms]
  set a := |x| with ha
  have hf0 : (0 : ℚ) ≤ a - ((⌊a⌋ : ℤ) : ℚ) := by
    have := Int.floor_le a
    linarith
  have hf1 : a - ((⌊a⌋ : ℤ) : ℚ) < 1 := by
    have := Int.lt_floor_add_one a
    linarith
  set md : ℚ := (a - ((⌊a⌋ : ℤ) : ℚ)) * 60 with hmd
  have hg0 : (0 : ℚ) ≤ md - ((⌊md⌋ : ℤ) : ℚ) := by
    have := Int.floor_le md
    linarith
  have hg1 : md - ((⌊md⌋ : ℤ) : ℚ) < 1 := by
    have := Int.lt_floor_add_one md
    linarith
  refine ⟨trivial, ?_, ?_, ?_, ?_, ?_⟩
  · exact_mod_cast Int.floor_nonneg.mpr (abs_nonneg x)
  · exact_mod_cast Int.floor_nonneg.mpr (by linarith : (0 : ℚ) ≤ md)
  · have hlt : md < 60 := by linarith
    calc ((⌊md⌋ : ℤ) : ℚ) ≤ md := Int.floor_le md
      _ < 60 := hlt
  · exact_mod_cast Int.floor_nonneg.mpr
      (by nlinarith : (0 : ℚ) ≤ (md - ((⌊md⌋ : ℤ) : ℚ)) * 60)
  · have hlt : (md - ((⌊md⌋ : ℤ) : ℚ)) * 60 < 60 := by nlinarith
    calc ((⌊(md - ((⌊md⌋ : ℤ) : ℚ)) * 60⌋ : ℤ) : ℚ)
        ≤ (md - ((⌊md⌋ : ℤ) : ℚ)) * 60 := Int.floor_le _
      _ < 60 := hlt

/-- Claim C4: decimal_to_dms is sign-independent: the codec of -x equals
the codec of x for every x; the sign is never applied to the degrees
field. -/
theorem claim4_sign_independent (x : ℚ) :
    decimal_to_dms (-x) = decimal_to_dms x := by
  simp [decimal_to_dms, abs_neg]

/-- Claim C5: for every sample point the emitter sets the latitude
hemisphere reference to N when lat >= 0 and S otherwise, and the longitude
hemisphere reference to E when lon >= 0 and W otherwise; the point
(-33.5, 151.2) encodes references S and E with all six DMS components
non-negative. -/
theorem claim5_hemisphere_refs :
    (∀ lat lon : ℚ,
        (exifGpsFor lat lon).gps_latitude_ref = (if 0 ≤ lat then "N" else "S") ∧
        (exifGpsFor lat lon).gps_longitude_ref = (if 0 ≤ lon then "E" else "W")) ∧
      (exifGpsFor (-33.5) 151.2).gps_latitude_ref = "S" ∧
      (exifGpsFor (-33.5) 151.2).gps_longitude_ref = "E" ∧
      0 ≤ (exifGpsFor (-33.5) 151.2).gps_latitude.1 ∧
      0 ≤ (exifGpsFor (-33.5) 151.2).gps_latitude.2.1 ∧
      0 ≤ (exifGpsFor (-33.5) 151.2).gps_latitude.2.2 ∧
      0 ≤ (exifGpsFor (-33.5) 151.2).gps_longitude.1 ∧
      0 ≤ (exifGpsFor (-33.5) 151.2).gps_longitude.2.1 ∧
      0 ≤ (exifGpsFor (-33.5) 151.2).gps_longitude.2.2 := by
  constructor
  · intro lat lon
    exact ⟨rfl, rfl⟩
  · refine ⟨?_, ?_, ?_, ?_, ?_, ?_, ?_, ?_⟩ <;>
      simp [exifGpsFor, decimal_to_dms_neg_thirty_three_half,
        decimal_to_dms_one_fifty_one_point_two] <;> norm_num

/-- Helper: every element of stepList is bounded above by xmax, because the
loop guard checks the bound before the element is emitted. -/
lemma stepList_mem_le (x xmax step : ℚ) :
    ∀ y ∈ stepList x xmax step, y ≤ xmax := by
  induction x, xmax, step using stepList.induct with
  | case1 x xmax step h ih =>
      intro y hy
      rw [stepList, dif_pos h] at hy
      rcases List.mem_cons.mp hy with rfl | hy
      · exact h.2
      · exact ih y hy
  | case2 x xmax step h =>
      intro y hy
      rw [stepList, dif_neg h] at hy
      simp at hy

/-- Helper: every element of stepList is bounded below by the starting
value. -/
lemma stepList_mem_ge (x xmax step : ℚ) :
    ∀ y ∈ stepList x xmax step, x ≤ y := by
  induction x, xmax, step using stepList.induct with
  | case1 x xmax step h ih =>
      intro y hy
      rw [stepList, dif_pos h] at hy
      rcases List.mem_cons.mp hy with rfl | hy
      · exact le_refl y
      · have := ih y hy
        linarith [h.1]
  | case2 x xmax step h =>
      intro y hy
      rw [stepList, dif_neg h] at hy
      simp at hy

/-- Helper: the elements of stepList are strictly increasing, so they are
pairwise distinct. -/
lemma stepList_pairwise (x xmax step : ℚ) :
    (stepList x xmax step).Pairwise (fun a b => a < b) := by
  induction x, xmax, step using stepList.induct with
  | case1 x xmax step h ih =>
      rw [stepList, dif_pos h]
      refine List.Pairwise.cons ?_ ih
      intro y hy
      have := stepList_mem_ge (x + step) xmax step y hy
      linarith [h.1]
  | case2 x xmax step h =>
      rw [stepList, dif_neg h]
      exact List.Pairwise.nil

/-- Helper: with a positive step, stepList is empty exactly when the
starting value already exceeds the bound. -/
lemma stepList_eq_nil (x xmax step : ℚ) (hs : 0 < step) :
    stepList x xmax step = [] ↔ xmax < x := by
  rcases le_or_lt x xmax with h | h
  · rw [stepList, dif_pos ⟨hs, h⟩]
    constructor
    · intro hnil
      exact absurd hnil (List.cons_ne_nil _ _)
    · intro hlt
      linarith
  · rw [stepList, dif_neg (fun hc => absurd hc.2 (not_le.mpr h))]
    simp [h]

/-- Helper: with a positive step and the starting value within the bound,
the length of stepList is floor((xmax - x) / step) + 1. -/
lemma stepList_length (x xmax step : ℚ) :
    0 < step → x ≤ xmax →
      (stepList x xmax step).length = (⌊(xmax - x) / step⌋).toNat + 1 := by
  induction x, xmax, step using stepList.induct with
  | case1 x xmax step h ih =>
      intro hs hle
      rw [stepList, dif_pos h, List.length_cons]
      by_cases h2 : x + step ≤ xmax
      · rw [ih hs h2]
        have hq1 : (1 : ℚ) ≤ (xmax - x) / step := (le_div_iff₀ hs).mpr (by linarith)
        have hfl1 : (1 : ℤ) ≤ ⌊(xmax - x) / step⌋ := Int.le_floor.mpr (by exact_mod_cast hq1)
        have harg : (xmax - (x + step)) / step = (xmax - x) / step - 1 := by
          field_simp
          ring
        have hfs : ⌊(xmax - x) / step - 1⌋ = ⌊(xmax - x) / step⌋ - 1 := by
          exact_mod_cast Int.floor_sub_int ((xmax - x) / step) 1
        rw [harg, hfs]
        omega
      · rw [stepList, dif_neg (fun hc => h2 hc.2)]
        have hq0 : (0 : ℚ) ≤ (xmax - x) / step := div_nonneg (by linarith) hs.le
        have hq1 : (xmax - x) / step < 1 := (div_lt_one hs).mpr (by linarith)
        have hz : ⌊(xmax - x) / step⌋ = 0 :=
          Int.floor_eq_zero_iff.mpr (Set.mem_Ico.mpr ⟨hq0, hq1⟩)
        simp [hz]
  | case2 x xmax step h =>
      intro hs hle
      exact absurd ⟨hs, hle⟩ h

/-- Helper: the inner longitude loop is the map that pairs the fixed
latitude with each element of the longitude sequence. -/
lemma lonLoop_eq_map (lat lon lon_max lon_step : ℚ) :
    lonLoop lat lon lon_max lon_step
      = (stepList lon lon_max lon_step).map (fun lo => (lat, lo)) := by
  induction lon, lon_max, lon_step using stepList.induct with
  | case1 lon lon_max lon_step h ih =>
      rw [lonLoop, dif_pos h, stepList, dif_pos h, List.map_cons, ih]
  | case2 lon lon_max lon_step h =>
      rw [lonLoop, dif_neg h, stepList, dif_neg h]
      rfl

/-- Helper: the nested sampling loops decompose row-major: the output is
the latitude sequence, each latitude paired with the same longitude
sequence. -/
lemma latLoop_eq_flatMap (lat lat_max lon_min lon_max lat_step lon_step : ℚ) :
    latLoop lat lat_max lon_min lon_max lat_step lon_step
      = (stepList lat lat_max lat_step).flatMap
          (fun la => (stepList lon_min lon_max lon_step).map (fun lo => (la, lo))) := by
  induction lat, lat_max, lat_step using stepList.induct with
  | case1 lat lat_max lat_step h ih =>
      rw [latLoop, dif_pos h, stepList, dif_pos h, List.flatMap_cons, ih, lonLoop_eq_map]
  | case2 lat lat_max lat_step h =>
      rw [latLoop, dif_neg h, stepList, dif_neg h]
      rfl

/-- Helper: every point emitted by the sampler has latitude at most
lat_max and longitude at most lon_max, because both loop guards check the
bound before the point is appended. -/
lemma generate_mem_le (lat_min lat_max lon_min lon_max step_km cos_lat_min : ℚ) :
    ∀ p ∈ generate_coordinates lat_min lat_max lon_min lon_max step_km cos_lat_min,
      p.1 ≤ lat_max ∧ p.2 ≤ lon_max := by
  intro p hp
  simp only [generate_coordinates] at hp
  rw [latLoop_eq_flatMap] at hp
  rcases List.mem_flatMap.mp hp with ⟨la, hla, hmem⟩
  rcases List.mem_map.mp hmem with ⟨lo, hlo, rfl⟩
  exact ⟨stepList_mem_le _ _ _ la hla, stepList_mem_le _ _ _ lo hlo⟩

/-- Helper: with enough fuel the fuel-indexed inner loop computes exactly
the inner loop of the terminating model. -/
lemma lonLoopFuel_complete (lat lon_max lon_step : ℚ) (ht : 0 < lon_step) :
    ∀ fuel lon, (stepList lon lon_max lon_step).length < fuel →
      lonLoopFuel lat fuel lon lon_max lon_step
        = some (lonLoop lat lon lon_max lon_step) := by
  intro fuel
  induction fuel with
  | zero =>
      intro lon h
      omega
  | succ n ih =>
      intro lon hlen
      rw [lonLoopFuel]
      by_cases h : lon ≤ lon_max
      · rw [stepList, dif_pos ⟨ht, h⟩, List.length_cons] at hlen
        rw [if_pos h, ih (lon + lon_step) (by omega)]
        conv_rhs => rw [lonLoop, dif_pos ⟨ht, h⟩]
        rfl
      · rw [if_neg h, lonLoop, dif_neg (fun hc => h hc.2)]

/-- Helper: with enough fuel for the outer loop, and one more unit of inner
fuel than the longitude row length, the fuel-indexed sampler computes
exactly the terminating model. -/
lemma latLoopFuel_complete (lat_max lon_min lon_max lat_step lon_step : ℚ)
    (hs : 0 < lat_step) (ht : 0 < lon_step) :
    ∀ fuel lat, (stepList lat lat_max lat_step).length < fuel →
      latLoopFuel fuel ((stepList lon_min lon_max lon_step).length + 1) lat lat_max
          lon_min lon_max lat_step lon_step
        = some (latLoop lat lat_max lon_min lon_max lat_step lon_step) := by
  intro fuel
  induction fuel with
  | zero =>
      intro lat h
      omega
  | succ n ih =>
      intro lat hlen
      rw [latLoopFuel]
      by_cases h : lat ≤ lat_max
      · rw [stepList, dif_pos ⟨hs, h⟩, List.length_cons] at hlen
        rw [if_pos h, lonLoopFuel_complete lat lon_max lon_step ht _ lon_min (by omega),
          ih (lat + lat_step) (by omega)]
        conv_rhs => rw [latLoop, dif_pos ⟨hs, h⟩]
      · rw [if_neg h, latLoop, dif_neg (fun hc => h hc.2)]

/-- Helper: the sampler on the degenerate unit box with unit step produces
exactly the single starting point. -/
lemma generate_coordinates_unit : generate_coordinates 0 0 0 0 1 1 = [(0, 0)] := by
  have hs : (0 : ℚ) < 1 / 111 := by norm_num
  have ht : (0 : ℚ) < 1 / (111 * 1) := by norm_num
  have hna : ¬((0 : ℚ) < 1 / 111 ∧ (0 : ℚ) + 1 / 111 ≤ 0) := by
    rintro ⟨-, h2⟩
    linarith
  have hnb : ¬((0 : ℚ) < 1 / (111 * 1) ∧ (0 : ℚ) + 1 / (111 * 1) ≤ 0) := by
    rintro ⟨-, h2⟩
    linarith
  simp only [generate_coordinates]
  rw [latLoop, dif_pos ⟨hs, le_refl (0 : ℚ)⟩]
  rw [lonLoop, dif_pos ⟨ht, le_refl (0 : ℚ)⟩]
  rw [lonLoop, dif_neg hnb]
  rw [latLoop, dif_neg hna]
  simp

/-- Claim C6: on a degenerate bounding box with lat_min = lat_max and
lon_min = lon_max, and any step and cosine value making both angular steps
positive, generate_coordinates returns exactly the one point
(lat_min, lon_min). -/
theorem claim6_degenerate_box (a b step_km cos_lat_min : ℚ)
    (hstep : 0 < step_km) (hcos : 0 < cos_lat_min) :
    generate_coordinates a a b b step_km cos_lat_min = [(a, b)] := by
  have hs : (0 : ℚ) < step_km / 111 := by positivity
  have ht : (0 : ℚ) < step_km / (111 * cos_lat_min) := by positivity
  have hna : ¬(0 < step_km / 111 ∧ a + step_km / 111 ≤ a) := by
    rintro ⟨-, h2⟩
    linarith
  have hnb : ¬(0 < step_km / (111 * cos_lat_min) ∧ b + step_km / (111 * cos_lat_min) ≤ b) := by
    rintro ⟨-, h2⟩
    linarith
  simp only [generate_coordinates]
  rw [latLoop, dif_pos ⟨hs, le_refl a⟩]
  rw [lonLoop, dif_pos ⟨ht, le_refl b⟩]
  rw [lonLoop, dif_neg hnb]
  rw [latLoop, dif_neg hna]
  simp

/-- Witness for claim C6 at the concrete box (0, 0, 0, 0) with step 1 and
cosine value 1. -/
theorem claim6_degenerate_box_witness :
    (0 : ℚ) < 1 ∧ generate_coordinates 0 0 0 0 1 1 = [(0, 0)] :=
  ⟨by norm_num, claim6_degenerate_box 0 0 1 1 (by norm_num) (by norm_num)⟩

/-- Claim C7: generate_coordinates emits points row-major: its output is
the latitude sequence starting at lat_min with step step_km / 111, each
latitude paired with the identical longitude sequence starting at lon_min
with the step step_km / (111 * cos_lat_min) computed once from the
minimum-latitude cosine and reused unchanged for every row. -/
theorem claim7_row_major (lat_min lat_max lon_min lon_max step_km cos_lat_min : ℚ) :
    generate_coordinates lat_min lat_max lon_min lon_max step_km cos_lat_min
      = (stepList lat_min lat_max (step_km / 111)).flatMap
          (fun la => (stepList lon_min lon_max (step_km / (111 * cos_lat_min))).map
            (fun lo => (la, lo))) := by
  simp only [generate_coordinates]
  exact latLoop_eq_flatMap _ _ _ _ _ _

/-- Claim C8 (as stated) is false: no bounding box with positive steps can
make generate_coordinates return a point with latitude strictly above
lat_max, because the outer loop guard admits a latitude only while it is
at most lat_max. -/
theorem claim8_counterexample :
    ¬ ∃ (lat_min lat_max lon_min lon_max step_km cos_lat_min : ℚ),
        (lat_min ≤ lat_max ∧ lon_min ≤ lon_max ∧ 0 < step_km ∧ 0 < cos_lat_min) ∧
        ∃ p ∈ generate_coordinates lat_min lat_max lon_min lon_max step_km cos_lat_min,
          lat_max < p.1 := by
  rintro ⟨lat_min, lat_max, lon_min, lon_max, step_km, cos_lat_min, -, p, hp, hlt⟩
  have hle := (generate_mem_le lat_min lat_max lon_min lon_max step_km cos_lat_min p hp).1
  linarith

/-- Claim C8 (amended): every point returned by generate_coordinates has
latitude at most lat_max and longitude at most lon_max; the loop guard is
checked on the accumulated value before each point is emitted, so the
final emitted row can lie at most exactly on the bound, never above it. -/
theorem claim8_no_overshoot (lat_min lat_max lon_min lon_max step_km cos_lat_min : ℚ)
    (p : ℚ × ℚ)
    (hp : p ∈ generate_coordinates lat_min lat_max lon_min lon_max step_km cos_lat_min) :
    p.1 ≤ lat_max ∧ p.2 ≤ lon_max :=
  generate_mem_le lat_min lat_max lon_min lon_max step_km cos_lat_min p hp

/-- Witness for the amended claim C8 at the concrete box (0, 0, 0, 0) with
step 1 and cosine value 1, whose output contains the point (0, 0). -/
theorem claim8_no_overshoot_witness :
    ((0, 0) : ℚ × ℚ) ∈ generate_coordinates 0 0 0 0 1 1 ∧
      (((0, 0) : ℚ × ℚ).1 ≤ 0 ∧ ((0, 0) : ℚ × ℚ).2 ≤ 0) := by
  have hmem : ((0, 0) : ℚ × ℚ) ∈ generate_coordinates 0 0 0 0 1 1 := by
    rw [generate_coordinates_unit]
    exact List.mem_singleton.mpr rfl
  exact ⟨hmem, claim8_no_overshoot 0 0 0 0 1 1 (0, 0) hmem⟩

/-- Claim C9: for lat_min <= lat_max and positive steps, the latitude rows
of generate_coordinates are the strictly increasing sequence stepList of
latitudes (so all rows are distinct), and their number is
floor((lat_max - lat_min) / lat_step) + 1. -/
theorem claim9_row_count (lat_min lat_max lon_min lon_max lat_step lon_step : ℚ)
    (hle : lat_min ≤ lat_max) (hs : 0 < lat_step) :
    latLoop lat_min lat_max lon_min lon_max lat_step lon_step
        = (stepList lat_min lat_max lat_step).flatMap
            (fun la => (stepList lon_min lon_max lon_step).map (fun lo => (la, lo))) ∧
      (stepList lat_min lat_max lat_step).Pairwise (fun a b => a < b) ∧
      (stepList lat_min lat_max lat_step).length
        = (⌊(lat_max - lat_min) / lat_step⌋).toNat + 1 :=
  ⟨latLoop_eq_flatMap lat_min lat_max lon_min lon_max lat_step lon_step,
    stepList_pairwise lat_min lat_max lat_step,
    stepList_length lat_min lat_max lat_step hs hle⟩

/-- Witness for claim C9 at the concrete box with latitudes 0 to 1,
longitudes 0 to 0, and both steps 1. -/
theorem claim9_row_count_witness :
    ((0 : ℚ) ≤ 1 ∧ (0 : ℚ) < 1) ∧
      (latLoop 0 1 0 0 1 1
          = (stepList 0 1 1).flatMap (fun la => (stepList 0 0 1).map (fun lo => (la, lo))) ∧
        (stepList 0 1 1).Pairwise (fun a b => a < b) ∧
        (stepList 0 1 1).length = (⌊((1 : ℚ) - 0) / 1⌋).toNat + 1) :=
  ⟨⟨by norm_num, by norm_num⟩, claim9_row_count 0 1 0 0 1 1 (by norm_num) (by norm_num)⟩

/-- Claim C10: when both angular steps are positive (step_km > 0 and
cos_lat_min > 0) the sampling loops terminate: some finite fuel makes the
fuel-indexed loops return the list computed by the terminating model; and
that list is empty exactly when lat_min > lat_max or lon_min > lon_max. -/
theorem claim10_terminates (lat_min lat_max lon_min lon_max step_km cos_lat_min : ℚ)
    (hstep : 0 < step_km) (hcos : 0 < cos_lat_min) :
    (∃ lat_fuel lon_fuel,
        latLoopFuel lat_fuel lon_fuel lat_min lat_max lon_min lon_max
            (step_km / 111) (step_km / (111 * cos_lat_min))
          = some (generate_coordinates lat_min lat_max lon_min lon_max step_km cos_lat_min)) ∧
      (generate_coordinates lat_min lat_max lon_min lon_max step_km cos_lat_min = []
        ↔ lat_max < lat_min ∨ lon_max < lon_min) := by
  have hs : (0 : ℚ) < step_km / 111 := by positivity
  have ht : (0 : ℚ) < step_km / (111 * cos_lat_min) := by positivity
  constructor
  · refine ⟨(stepList lat_min lat_max (step_km / 111)).length + 1,
      (stepList lon_min lon_max (step_km / (111 * cos_lat_min))).length + 1, ?_⟩
    simp only [generate_coordinates]
    exact latLoopFuel_complete lat_max lon_min lon_max _ _ hs ht _ lat_min (by omega)
  · simp only [generate_coordinates]
    rw [latLoop_eq_flatMap]
    constructor
    · intro hnil
      by_contra hcon
      push_neg at hcon
      obtain ⟨h1, h2⟩ := hcon
      have hmemlat : lat_min ∈ stepList lat_min lat_max (step_km / 111) := by
        rw [stepList, dif_pos ⟨hs, h1⟩]
        exact List.mem_cons_self _ _
      have hmemlon : lon_min ∈ stepList lon_min lon_max (step_km / (111 * cos_lat_min)) := by
        rw [stepList, dif_pos ⟨ht, h2⟩]
        exact List.mem_cons_self _ _
      have hmem : (lat_min, lon_min)
          ∈ (stepList lat_min lat_max (step_km / 111)).flatMap
              (fun la => (stepList lon_min lon_max
                (step_km / (111 * cos_lat_min))).map (fun lo => (la, lo))) :=
        List.mem_flatMap.mpr ⟨lat_min, hmemlat, List.mem_map.mpr ⟨lon_min, hmemlon, rfl⟩⟩
      rw [hnil] at hmem
      exact absurd hmem (List.not_mem_nil _)
    · intro hor
      rcases hor with h | h
      · rw [(stepList_eq_nil lat_min lat_max _ hs).mpr h]
        rfl
      · rw [(stepList_eq_nil lon_min lon_max _ ht).mpr h]
        simp

/-- Witness for claim C10 at the concrete box (0, 0, 0, 0) with step 1 and
cosine value 1. -/
theorem claim10_terminates_witness :
    (0 : ℚ) < 1 ∧
      ((∃ lat_fuel lon_fuel,
          latLoopFuel lat_fuel lon_fuel 0 0 0 0 (1 / 111) (1 / (111 * 1))
            = some (generate_coordinates 0 0 0 0 1 1)) ∧
        (generate_coordinates 0 0 0 0 1 1 = [] ↔ (0 : ℚ) < 0 ∨ (0 : ℚ) < 0)) :=
  ⟨by norm_num, claim10_terminates 0 0 0 0 1 1 (by norm_num) (by norm_num)⟩

end GeoImages
